import Mathlib

set_option maxHeartbeats 1000000

/-!
Verification of the DanskReader reading assistant against its design
specification.  The definitions below are a shallow embedding of the
TypeScript source: the session lookup sequencer and history log from
src/App.tsx, the audio playback controller from
src/services/geminiService.ts, the span/context resolution engine from
src/components/ArticleReader.tsx, the popover placement arithmetic from
the same file, and the text-size setting handlers from src/App.tsx.
JavaScript strings are modelled as lists of characters, numbers used for
layout and settings as rationals, and the module-level mutable audio
variables as an explicit state record.
-/

namespace DanskReader

/-! ### Data model (src/types.ts) -/

/-- LoadingState enum from src/types.ts. -/
inductive LoadingState where
  | IDLE
  | GENERATING_ARTICLE
  | TRANSLATING
  | ERROR
deriving DecidableEq, Repr

/-- WordDefinition interface from src/types.ts; optional fields become Option. -/
structure WordDefinition where
  word : String
  translation : Option String
  chineseTranslation : Option String
  pronunciation : String
  partOfSpeech : String
  contextParams : String
  exampleSentence : Option String
  detailedExplanation : Option String
  detailedChineseExplanation : Option String
deriving DecidableEq, Repr

/-- HistoryItem interface from src/types.ts: a WordDefinition plus id and timestamp. -/
structure HistoryItem extends WordDefinition where
  id : String
  timestamp : Nat
deriving DecidableEq, Repr

/-! ### Lookup sequencer state (src/App.tsx) -/

/-- The shared presentation state touched by handleWordSelect in src/App.tsx:
the request-generation counter (currentRequestIdRef), the shown definition
(currentDefinition), the loading flag (loadingState) and the word history. -/
structure SessionState where
  requestId : Nat
  currentDefinition : Option WordDefinition
  loadingState : LoadingState
  history : List HistoryItem
deriving DecidableEq, Repr

/-- JavaScript String.prototype.toLowerCase restricted to the Basic Latin and
Latin-1 uppercase letters (A-Z and the accented range used by the app). -/
def jsToLowerChar (c : Char) : Char :=
  let n := c.toNat
  if 0x41 ≤ n ∧ n ≤ 0x5A then Char.ofNat (n + 32)
  else if (0xC0 ≤ n ∧ n ≤ 0xD6) ∨ (0xD8 ≤ n ∧ n ≤ 0xDE) then Char.ofNat (n + 32)
  else c

/-- Case folding of a whole word, used by the history deduplication filter. -/
def jsToLower (s : String) : String :=
  String.mk (s.data.map jsToLowerChar)

/-- The history update from src/App.tsx lines 191-196: filter out items whose
word matches case-insensitively, cons the new item, then apply the JavaScript
call slice(50), which drops the first 50 elements of the array. -/
def pushHistory (prev : List HistoryItem) (d : WordDefinition) (newId : String)
    (now : Nat) : List HistoryItem :=
  let filtered := prev.filter (fun item => jsToLower item.word != jsToLower d.word)
  let newItem : HistoryItem := { toWordDefinition := d, id := newId, timestamp := now }
  (newItem :: filtered).drop 50

/-- The synchronous prefix of handleWordSelect (src/App.tsx lines 167-179):
increment the request id, set the loading flag, clear the shown definition.
Returns the new state together with the captured requestId. -/
def submit (s : SessionState) : SessionState × Nat :=
  let newId := s.requestId + 1
  ({ requestId := newId
     currentDefinition := none
     loadingState := LoadingState.TRANSLATING
     history := s.history }, newId)

/-- State part of submit, for iterating. -/
def submitState (s : SessionState) : SessionState :=
  (submit s).1

/-- Resumption of handleWordSelect after a successful translation
(src/App.tsx lines 183-196 and the finally block at 223-228): a stale
generation returns without touching state; the current generation stores the
definition, pushes the history entry and clears the loading flag. -/
def completeSuccess (s : SessionState) (requestId : Nat) (d : WordDefinition)
    (newId : String) (now : Nat) : SessionState :=
  if s.requestId ≠ requestId then s
  else
    { s with
      currentDefinition := some d
      history := pushHistory s.history d newId now
      loadingState := LoadingState.IDLE }

/-- Resumption of handleWordSelect after a failed translation (src/App.tsx
lines 219-228): a stale generation returns untouched; the current generation
only logs to the console and clears the loading flag in the finally block. -/
def completeFailure (s : SessionState) (requestId : Nat) : SessionState :=
  if s.requestId ≠ requestId then s
  else { s with loadingState := LoadingState.IDLE }

/-! ### Audio playback controller (src/services/geminiService.ts) -/

/-- The module-level audio globals of src/services/geminiService.ts together
with the observable fate of playback promises.  currentAudio holds the id of
the HTMLAudioElement being played, currentResolve the id of the pending
promise resolver, speechQueueActive whether the Web Speech queue is nonempty,
and resolved accumulates the promises that have been resolved. -/
structure AudioState where
  currentAudio : Option Nat
  currentResolve : Option Nat
  speechQueueActive : Bool
  resolved : List Nat
  rejected : List Nat
deriving DecidableEq, Repr

/-- stopAudio from src/services/geminiService.ts lines 203-221: pause and
detach the audio element, cancel the speech-synthesis queue, and resolve any
pending playback promise. -/
def stopAudio (s : AudioState) : AudioState :=
  let s1 : AudioState := { s with currentAudio := none }
  let s2 : AudioState := { s1 with speechQueueActive := false }
  match s2.currentResolve with
  | some p => { s2 with currentResolve := none, resolved := p :: s2.resolved }
  | none => s2

/-- Outcome of one playback path (the audio element, or one utterance). -/
inductive PathOutcome where
  | ended
  | error
deriving DecidableEq, Repr

/-- Environment under which playPronunciation runs: how the primary remote
fetch behaves, whether window.speechSynthesis exists, and how the on-device
fallback utterance behaves. -/
structure AudioEnv where
  primary : PathOutcome
  speechSynthAvailable : Bool
  fallback : PathOutcome
deriving DecidableEq, Repr

/-- Fate of the promise returned by playPronunciation. -/
inductive PlayOutcome where
  | resolved
  | rejected
deriving DecidableEq, Repr

/-- Result of one playPronunciation call: the promise fate and the text that
was handed to whichever synthesis path ran. -/
structure PlayRun where
  outcome : PlayOutcome
  playedText : List Char
deriving DecidableEq, Repr

/-- The truncation in playPronunciation (src/services/geminiService.ts line
233): text.length greater than 200 is cut to its first 200 characters. -/
def safeText (text : List Char) : List Char :=
  if 200 < text.length then text.take 200 else text

/-- playPronunciation promise semantics (src/services/geminiService.ts lines
223-309): the primary audio element resolves on ended; on error the code
falls back to the Web Speech API when available, resolving on utterance end
and rejecting on utterance error; without speechSynthesis it rejects. -/
def playPronunciation (env : AudioEnv) (text : List Char) : PlayRun :=
  let st := safeText text
  match env.primary with
  | PathOutcome.ended => { outcome := PlayOutcome.resolved, playedText := st }
  | PathOutcome.error =>
    if env.speechSynthAvailable then
      match env.fallback with
      | PathOutcome.ended => { outcome := PlayOutcome.resolved, playedText := st }
      | PathOutcome.error => { outcome := PlayOutcome.rejected, playedText := st }
    else { outcome := PlayOutcome.rejected, playedText := st }

/-! ### Text-size setting (src/App.tsx lines 266-278) -/

/-- JavaScript Number.prototype.toFixed(1) followed by parseFloat, on the
rational stand-in for the double: round to the nearest tenth, half up. -/
def round1 (q : ℚ) : ℚ :=
  ((Int.floor (10 * q + 1 / 2) : ℤ) : ℚ) / 10

/-- handleIncreaseTextSize from src/App.tsx lines 266-271. -/
def increaseTextSize (prev : ℚ) : ℚ :=
  let next := prev + 1 / 10
  if 3 < next then 3 else round1 next

/-- handleDecreaseTextSize from src/App.tsx lines 273-278. -/
def decreaseTextSize (prev : ℚ) : ℚ :=
  let next := prev - 1 / 10
  if next < 1 / 2 then 1 / 2 else round1 next

/-- Apply a sequence of text-size button presses (true = increase). -/
def applyTextSizeOps : List Bool → ℚ → ℚ
  | [], q => q
  | b :: rest, q =>
    applyTextSizeOps rest (if b then increaseTextSize q else decreaseTextSize q)

/-! ### Popover placement (src/components/ArticleReader.tsx lines 402-446) -/

/-- Horizontal placement outputs of renderPopover: the clamped popover center
and the clamped connector-arrow offset. -/
structure PopoverPlacement where
  popoverCenterX : ℚ
  clampedArrowOffset : ℚ
deriving DecidableEq, Repr

/-- The popover width choice of renderPopover: 288 on mobile (window
narrower than 768 logical units) and 320 otherwise. -/
def popoverWidthOf (windowWidth : ℚ) : ℚ :=
  if windowWidth < 768 then 288 else 320

/-- The horizontal placement arithmetic of renderPopover
(src/components/ArticleReader.tsx lines 409-425): popoverWidth is 288 on
mobile (window narrower than 768) and 320 otherwise, margin is 12, the word
center is clamped between the two admissible extremes, and the arrow offset
is clamped to popoverWidth / 2 - 24. -/
def renderPopoverPlacement (left width containerWidth windowWidth : ℚ) :
    PopoverPlacement :=
  let popoverWidth : ℚ := popoverWidthOf windowWidth
  let wordCenterX := left + width / 2
  let margin : ℚ := 12
  let minCenterX := popoverWidth / 2 + margin
  let maxCenterX := containerWidth - popoverWidth / 2 - margin
  let popoverCenterX := max minCenterX (min wordCenterX maxCenterX)
  let arrowOffset := wordCenterX - popoverCenterX
  let maxArrowOffset := popoverWidth / 2 - 24
  let clampedArrowOffset := max (-maxArrowOffset) (min arrowOffset maxArrowOffset)
  { popoverCenterX := popoverCenterX, clampedArrowOffset := clampedArrowOffset }

/-! ### Span and context resolution (src/components/ArticleReader.tsx) -/

/-- The character class of the regular expression in isWordChar
(src/components/ArticleReader.tsx lines 145-147): ASCII letters, digits,
hyphen, Latin extended and accented letters, Cyrillic, Greek and Hangul. -/
def isWordChar (c : Char) : Bool :=
  let n := c.toNat
  decide ((0x61 ≤ n ∧ n ≤ 0x7A) ∨ (0x41 ≤ n ∧ n ≤ 0x5A) ∨ (0x30 ≤ n ∧ n ≤ 0x39) ∨
    n = 0x2D ∨ (0xC0 ≤ n ∧ n ≤ 0x24F) ∨ (0x1E00 ≤ n ∧ n ≤ 0x1EFF) ∨
    (0x400 ≤ n ∧ n ≤ 0x4FF) ∨ (0x370 ≤ n ∧ n ≤ 0x3FF) ∨ (0xAC00 ≤ n ∧ n ≤ 0xD7AF))

/-- The JavaScript regular-expression whitespace class (backslash-s):
tab, line feed, vertical tab, form feed, carriage return, space, no-break
space, ogham space mark, the en-quad to hair-space range, line and paragraph
separators, narrow no-break space, medium mathematical space, ideographic
space and the byte-order mark. -/
def isJsSpaceChar (c : Char) : Bool :=
  let n := c.toNat
  decide (n = 0x9 ∨ n = 0xA ∨ n = 0xB ∨ n = 0xC ∨ n = 0xD ∨ n = 0x20 ∨ n = 0xA0 ∨
    n = 0x1680 ∨ (0x2000 ≤ n ∧ n ≤ 0x200A) ∨ n = 0x2028 ∨ n = 0x2029 ∨ n = 0x202F ∨
    n = 0x205F ∨ n = 0x3000 ∨ n = 0xFEFF)

/-- The punctuation character class of the clicked-word filter regular
expression in handleClick (src/components/ArticleReader.tsx line 246):
whitespace, the general-punctuation and supplemental-punctuation blocks, the
listed ASCII symbols and the listed CJK punctuation marks. -/
def isPunctChar (c : Char) : Bool :=
  let n := c.toNat
  isJsSpaceChar c ||
    decide ((0x2000 ≤ n ∧ n ≤ 0x206F) ∨ (0x2E00 ≤ n ∧ n ≤ 0x2E7F) ∨
      n = 0x5C ∨ n = 0x27 ∨ n = 0x21 ∨ n = 0x22 ∨ n = 0x23 ∨ n = 0x24 ∨ n = 0x25 ∨
      n = 0x26 ∨ n = 0x28 ∨ n = 0x29 ∨ n = 0x2A ∨ n = 0x2B ∨ n = 0x2C ∨ n = 0x2D ∨
      n = 0x2E ∨ n = 0x2F ∨ n = 0x3A ∨ n = 0x3B ∨ n = 0x3C ∨ n = 0x3D ∨ n = 0x3E ∨
      n = 0x3F ∨ n = 0x40 ∨ n = 0x5B ∨ n = 0x5D ∨ n = 0x5E ∨ n = 0x60 ∨ n = 0x7B ∨
      n = 0x7C ∨ n = 0x7D ∨ n = 0x7E ∨ n = 0x3002 ∨ n = 0xFF0C ∨ n = 0x3001 ∨
      n = 0xFF1F ∨ n = 0xFF1B ∨ n = 0xFF1A ∨ n = 0x2018 ∨ n = 0x2019 ∨ n = 0x201C ∨
      n = 0x201D ∨ n = 0x3010 ∨ n = 0x3011 ∨ n = 0xFF08 ∨ n = 0xFF09 ∨ n = 0x2026 ∨
      n = 0x2014)

/-- The test of the clicked-word filter regular expression: a string matches
iff it is nonempty and consists solely of punctuation-class characters. -/
def isPurePunct (w : List Char) : Bool :=
  !w.isEmpty && w.all isPunctChar

/-- A run consisting solely of hyphen characters (the only characters that
are both word characters and punctuation-class characters). -/
def isAllHyphens (w : List Char) : Bool :=
  !w.isEmpty && w.all (fun c => c.toNat == 0x2D)

/-- JavaScript String.prototype.trim: strip whitespace from both ends. -/
def jsTrim (l : List Char) : List Char :=
  ((l.dropWhile isJsSpaceChar).reverse.dropWhile isJsSpaceChar).reverse

/-- The backward word-boundary loop of handleClick
(src/components/ArticleReader.tsx lines 235-237): while start is positive and
the character before start is a word character, decrement start. -/
def scanWordStart (text : List Char) : Nat → Nat
  | 0 => 0
  | s + 1 => if isWordChar (text.getD s ' ') then scanWordStart text s else s + 1

/-- Fuel-indexed forward word-boundary loop; the fuel bounds the remaining
iterations, matching the loop guard against text.length. -/
def scanWordEndAux (text : List Char) : Nat → Nat → Nat
  | 0, i => i
  | fuel + 1, i =>
    if decide (i < text.length) && isWordChar (text.getD i ' ') then
      scanWordEndAux text fuel (i + 1)
    else i

/-- The forward word-boundary loop of handleClick
(src/components/ArticleReader.tsx lines 239-242): while the end offset is in
range and points at a word character, increment it. -/
def scanWordEnd (text : List Char) (offset : Nat) : Nat :=
  scanWordEndAux text (text.length - offset) offset

/-- Word resolution at a caret offset in a text node (handleClick,
src/components/ArticleReader.tsx lines 228-250): expand to word boundaries,
trim, and reject empty results and pure-punctuation runs by clearing the
selection (none). -/
def resolveWordAt (text : List Char) (offset : Nat) : Option (List Char) :=
  let start := scanWordStart text offset
  let e := scanWordEnd text offset
  let clickedWord := jsTrim ((text.take e).drop start)
  if clickedWord.isEmpty || isPurePunct clickedWord then none else some clickedWord

/-- The sentence terminator set of handleClick
(src/components/ArticleReader.tsx line 271). -/
def isTerminator (c : Char) : Bool :=
  c == '.' || c == '!' || c == '?' || c == '。' || c == '？' || c == '！' || c == '\n'

/-- The backward sentence-boundary loop (src/components/ArticleReader.tsx
lines 277-282): scan indices globalStart - 1 down to 0; on the first
terminator return the following index, otherwise 0.  The argument is the
number of indices left to inspect. -/
def scanBackAux (t : List Char) : Nat → Nat
  | 0 => 0
  | i + 1 => if isTerminator (t.getD i ' ') then i + 1 else scanBackAux t i

/-- Sentence start for a span beginning at globalStart. -/
def sentStart (t : List Char) (globalStart : Nat) : Nat :=
  scanBackAux t globalStart

/-- Fuel-indexed forward sentence-boundary loop
(src/components/ArticleReader.tsx lines 285-290): scan from globalEnd
upward; on the first terminator return the index past it, otherwise the
container length. -/
def scanFwdAux (t : List Char) : Nat → Nat → Nat
  | 0, _ => t.length
  | fuel + 1, i => if isTerminator (t.getD i ' ') then i + 1 else scanFwdAux t fuel (i + 1)

/-- Sentence end for a span ending (exclusively) at globalEnd. -/
def sentEnd (t : List Char) (globalEnd : Nat) : Nat :=
  scanFwdAux t (t.length - globalEnd) globalEnd

/-- Context extraction for a resolved span occupying the global offsets
[globalStart, globalEnd) of the flattened container text
(src/components/ArticleReader.tsx lines 261-292): the substring between the
scanned sentence boundaries, trimmed. -/
def extractContext (t : List Char) (globalStart globalEnd : Nat) : List Char :=
  jsTrim ((t.take (sentEnd t globalEnd)).drop (sentStart t globalStart))

/-! ### Helper lemmas: character classes and trimming -/

/-- A word character is never regular-expression whitespace. -/
theorem word_not_space (c : Char) (h : isWordChar c = true) :
    isJsSpaceChar c = false := by
  simp only [isWordChar, decide_eq_true_eq] at h
  simp only [isJsSpaceChar, decide_eq_false_iff_not]
  omega

/-- The hyphen is the only character that is both a word character and a
member of the punctuation filter class. -/
theorem word_punct_toNat (c : Char) (hw : isWordChar c = true)
    (hp : isPunctChar c = true) : c.toNat = 0x2D := by
  simp only [isWordChar, decide_eq_true_eq] at hw
  simp only [isPunctChar, isJsSpaceChar, Bool.or_eq_true, decide_eq_true_eq] at hp
  omega

/-- The hyphen character is in the punctuation filter class. -/
theorem hyphen_punct (c : Char) (h : c.toNat = 0x2D) : isPunctChar c = true := by
  simp only [isPunctChar, Bool.or_eq_true, decide_eq_true_eq]
  right
  omega

/-- dropWhile is the identity when no element satisfies the predicate. -/
theorem dropWhile_eq_self_of_not (p : Char → Bool) :
    ∀ l : List Char, (∀ c ∈ l, p c = false) → l.dropWhile p = l
  | [], _ => rfl
  | c :: l, h => by
    rw [List.dropWhile_cons]
    simp [h c (List.mem_cons_self c l)]

/-- Trimming is the identity on strings with no whitespace. -/
theorem jsTrim_eq_self (l : List Char) (h : ∀ c ∈ l, isJsSpaceChar c = false) :
    jsTrim l = l := by
  unfold jsTrim
  rw [dropWhile_eq_self_of_not _ l h,
    dropWhile_eq_self_of_not _ l.reverse (fun c hc => h c (List.mem_reverse.mp hc))]
  exact List.reverse_reverse l

/-- A word character read through getD certifies an in-range index. -/
theorem word_getD_lt (t : List Char) (i : Nat)
    (h : isWordChar (t.getD i ' ') = true) : i < t.length := by
  by_contra hc
  rw [List.getD_eq_default _ _ (by omega)] at h
  exact absurd h (by decide)

/-! ### Helper lemmas: word-boundary scans -/

/-- The backward word scan never moves past the click offset. -/
theorem scanWordStart_le (t : List Char) : ∀ off, scanWordStart t off ≤ off
  | 0 => Nat.le_refl 0
  | s + 1 => by
    simp only [scanWordStart]
    split
    · exact Nat.le_succ_of_le (scanWordStart_le t s)
    · exact Nat.le_refl (s + 1)

/-- Every character strictly between the scanned start and the click offset
is a word character. -/
theorem scanWordStart_words (t : List Char) :
    ∀ off j, scanWordStart t off ≤ j → j < off → isWordChar (t.getD j ' ') = true := by
  intro off
  induction off with
  | zero => omega
  | succ s ih =>
    intro j h1 h2
    by_cases hw : isWordChar (t.getD s ' ') = true
    · rw [show scanWordStart t (s + 1) = scanWordStart t s by
        simp only [scanWordStart]
        rw [if_pos hw]] at h1
      rcases Nat.lt_succ_iff_lt_or_eq.mp h2 with h2 | rfl
      · exact ih j h1 h2
      · exact hw
    · rw [show scanWordStart t (s + 1) = s + 1 by
        simp only [scanWordStart]
        rw [if_neg hw]] at h1
      omega

/-- The scanned start is maximal: it is 0 or the character before it is not
a word character. -/
theorem scanWordStart_boundary (t : List Char) :
    ∀ off, scanWordStart t off = 0 ∨
      isWordChar (t.getD (scanWordStart t off - 1) ' ') = false := by
  intro off
  induction off with
  | zero => exact Or.inl rfl
  | succ s ih =>
    by_cases hw : isWordChar (t.getD s ' ') = true
    · rw [show scanWordStart t (s + 1) = scanWordStart t s by
        simp only [scanWordStart]
        rw [if_pos hw]]
      exact ih
    · rw [show scanWordStart t (s + 1) = s + 1 by
        simp only [scanWordStart]
        rw [if_neg hw]]
      right
      have hwf : isWordChar (t.getD s ' ') = false := by
        revert hw
        cases isWordChar (t.getD s ' ') <;> simp
      simpa using hwf

/-- When the character just before a positive offset is a word character the
backward scan moves at least one step left. -/
theorem scanWordStart_pred (t : List Char) (off : Nat) (hpos : 0 < off)
    (h : isWordChar (t.getD (off - 1) ' ') = true) :
    scanWordStart t off ≤ off - 1 := by
  obtain ⟨k, rfl⟩ : ∃ k, off = k + 1 := ⟨off - 1, by omega⟩
  have hk : isWordChar (t.getD k ' ') = true := by simpa using h
  rw [show scanWordStart t (k + 1) = scanWordStart t k by
    simp only [scanWordStart]
    rw [if_pos hk]]
  simpa using scanWordStart_le t k

/-- The forward word scan never moves left. -/
theorem scanWordEndAux_ge (t : List Char) :
    ∀ fuel i, i ≤ scanWordEndAux t fuel i
  | 0, i => Nat.le_refl i
  | fuel + 1, i => by
    simp only [scanWordEndAux]
    split
    · exact Nat.le_of_succ_le (scanWordEndAux_ge t fuel (i + 1))
    · exact Nat.le_refl i

/-- The forward word scan consumes at most its fuel. -/
theorem scanWordEndAux_le (t : List Char) :
    ∀ fuel i, scanWordEndAux t fuel i ≤ i + fuel
  | 0, i => Nat.le_refl i
  | fuel + 1, i => by
    simp only [scanWordEndAux]
    split
    · have := scanWordEndAux_le t fuel (i + 1)
      omega
    · omega

/-- Every character between the start offset and the scanned end is a word
character. -/
theorem scanWordEndAux_words (t : List Char) :
    ∀ fuel i j, i ≤ j → j < scanWordEndAux t fuel i →
      isWordChar (t.getD j ' ') = true := by
  intro fuel
  induction fuel with
  | zero =>
    intro i j h1 h2
    simp only [scanWordEndAux] at h2
    omega
  | succ fuel ih =>
    intro i j h1 h2
    simp only [scanWordEndAux] at h2
    by_cases hc : (decide (i < t.length) && isWordChar (t.getD i ' ')) = true
    · rw [if_pos hc] at h2
      rcases Nat.lt_or_ge i j with hij | hij
      · exact ih (i + 1) j (by omega) h2
      · have hji : j = i := by omega
        subst hji
        exact (Bool.and_eq_true _ _).mp hc |>.2
    · rw [if_neg hc] at h2
      omega

/-- The scanned end is maximal: it reaches the container length or stops on
a non-word character (given enough fuel to reach the length). -/
theorem scanWordEndAux_boundary (t : List Char) :
    ∀ fuel i, t.length ≤ i + fuel →
      t.length ≤ scanWordEndAux t fuel i ∨
        isWordChar (t.getD (scanWordEndAux t fuel i) ' ') = false := by
  intro fuel
  induction fuel with
  | zero =>
    intro i h
    simp only [scanWordEndAux]
    omega
  | succ fuel ih =>
    intro i h
    simp only [scanWordEndAux]
    by_cases hc : (decide (i < t.length) && isWordChar (t.getD i ' ')) = true
    · rw [if_pos hc]
      exact ih (i + 1) (by omega)
    · rw [if_neg hc]
      by_cases hlen : i < t.length
      · by_cases hw : isWordChar (t.getD i ' ') = true
        · exact absurd ((Bool.and_eq_true _ _).mpr ⟨decide_eq_true hlen, hw⟩) hc
        · right
          revert hw
          cases isWordChar (t.getD i ' ') <;> simp
      · left
        omega

/-- When the clicked character itself is a word character the forward scan
advances at least one step. -/
theorem scanWordEnd_succ (t : List Char) (off : Nat)
    (h : isWordChar (t.getD off ' ') = true) : off + 1 ≤ scanWordEnd t off := by
  have hlt : off < t.length := word_getD_lt t off h
  unfold scanWordEnd
  obtain ⟨m, hm⟩ : ∃ m, t.length - off = m + 1 := ⟨t.length - off - 1, by omega⟩
  rw [hm]
  simp only [scanWordEndAux]
  rw [if_pos ((Bool.and_eq_true _ _).mpr ⟨decide_eq_true hlt, h⟩)]
  exact scanWordEndAux_ge t m (off + 1)

/-! ### Helper lemmas: sentence-boundary scans -/

/-- A terminator read through getD certifies an in-range index. -/
theorem terminator_getD_lt (t : List Char) (i : Nat)
    (h : isTerminator (t.getD i ' ') = true) : i < t.length := by
  by_contra hc
  rw [List.getD_eq_default _ _ (by omega)] at h
  exact absurd h (by decide)

/-- The backward sentence scan never moves past the span start. -/
theorem scanBackAux_le (t : List Char) : ∀ g, scanBackAux t g ≤ g
  | 0 => Nat.le_refl 0
  | g + 1 => by
    simp only [scanBackAux]
    split
    · exact Nat.le_refl (g + 1)
    · exact Nat.le_succ_of_le (scanBackAux_le t g)

/-- Characterisation of the backward sentence scan: either there is no
terminator before the span start and the scan returns 0, or the scan stops
just after the nearest terminator, with no terminator strictly between. -/
theorem scanBackAux_spec (t : List Char) :
    ∀ g, (scanBackAux t g = 0 ∧ ∀ j, j < g → isTerminator (t.getD j ' ') = false)
      ∨ (0 < scanBackAux t g ∧
          isTerminator (t.getD (scanBackAux t g - 1) ' ') = true ∧
          ∀ k, scanBackAux t g ≤ k → k < g → isTerminator (t.getD k ' ') = false) := by
  intro g
  induction g with
  | zero => exact Or.inl ⟨rfl, fun j hj => absurd hj (Nat.not_lt_zero j)⟩
  | succ g ih =>
    by_cases ht : isTerminator (t.getD g ' ') = true
    · right
      rw [show scanBackAux t (g + 1) = g + 1 by
        simp only [scanBackAux]
        rw [if_pos ht]]
      refine ⟨by omega, by simpa using ht, ?_⟩
      intro k hk1 hk2
      omega
    · have htf : isTerminator (t.getD g ' ') = false := by
        revert ht
        cases isTerminator (t.getD g ' ') <;> simp
      rw [show scanBackAux t (g + 1) = scanBackAux t g by
        simp only [scanBackAux]
        rw [if_neg ht]]
      rcases ih with ⟨h0, hall⟩ | ⟨hpos, hterm, hafter⟩
      · left
        refine ⟨h0, ?_⟩
        intro j hj
        rcases Nat.lt_succ_iff_lt_or_eq.mp hj with hj | rfl
        · exact hall j hj
        · exact htf
      · right
        refine ⟨hpos, hterm, ?_⟩
        intro k hk1 hk2
        rcases Nat.lt_succ_iff_lt_or_eq.mp hk2 with hk | rfl
        · exact hafter k hk1 hk
        · exact htf

/-- Characterisation of the forward sentence scan: with enough fuel to reach
the container end, either no terminator occurs at or after the span end and
the scan returns the container length, or it returns the index just past the
nearest terminator at or after the span end. -/
theorem scanFwdAux_spec (t : List Char) :
    ∀ fuel i, t.length ≤ i + fuel →
      (scanFwdAux t fuel i = t.length ∧
        ∀ j, i ≤ j → j < t.length → isTerminator (t.getD j ' ') = false)
      ∨ (∃ j, i ≤ j ∧ j < t.length ∧ isTerminator (t.getD j ' ') = true ∧
          scanFwdAux t fuel i = j + 1 ∧
          ∀ k, i ≤ k → k < j → isTerminator (t.getD k ' ') = false) := by
  intro fuel
  induction fuel with
  | zero =>
    intro i h
    left
    refine ⟨rfl, ?_⟩
    intro j hj1 hj2
    omega
  | succ fuel ih =>
    intro i h
    by_cases ht : isTerminator (t.getD i ' ') = true
    · right
      refine ⟨i, Nat.le_refl i, terminator_getD_lt t i ht, ht, ?_, ?_⟩
      · simp only [scanFwdAux]
        rw [if_pos ht]
      · intro k hk1 hk2
        omega
    · have htf : isTerminator (t.getD i ' ') = false := by
        revert ht
        cases isTerminator (t.getD i ' ') <;> simp
      rw [show scanFwdAux t (fuel + 1) i = scanFwdAux t fuel (i + 1) by
        simp only [scanFwdAux]
        rw [if_neg ht]]
      rcases ih (i + 1) (by omega) with ⟨hlen, hall⟩ | ⟨j, hj1, hj2, hj3, hj4, hafter⟩
      · left
        refine ⟨hlen, ?_⟩
        intro j hj1 hj2
        rcases Nat.lt_or_ge i j with hij | hij
        · exact hall j (by omega) hj2
        · have : j = i := by omega
          subst this
          exact htf
      · right
        refine ⟨j, by omega, hj2, hj3, hj4, ?_⟩
        intro k hk1 hk2
        rcases Nat.lt_or_ge i k with hik | hik
        · exact hafter k (by omega) hk2
        · have : k = i := by omega
          subst this
          exact htf

/-- Every character of the expanded clicked run is a word character. -/
theorem run_words (text : List Char) (off : Nat) :
    ∀ c ∈ (text.take (scanWordEnd text off)).drop (scanWordStart text off),
      isWordChar c = true := by
  intro c hc
  rw [List.mem_iff_getElem] at hc
  obtain ⟨i, hi, hgi⟩ := hc
  have hb : scanWordStart text off + i < min (scanWordEnd text off) text.length := by
    rw [List.length_drop, List.length_take] at hi
    omega
  have hbl : scanWordStart text off + i < text.length := by omega
  have hbe : scanWordStart text off + i < scanWordEnd text off := by omega
  rw [List.getElem_drop, List.getElem_take] at hgi
  have hw : isWordChar (text.getD (scanWordStart text off + i) ' ') = true := by
    rcases Nat.lt_or_ge (scanWordStart text off + i) off with hlt | hge
    · exact scanWordStart_words text off _ (by omega) hlt
    · exact scanWordEndAux_words text (text.length - off) off _ hge hbe
  rw [List.getD_eq_getElem text ' ' hbl, hgi] at hw
  exact hw

/-! ### Helper lemmas: text-size rounding -/

/-- toFixed(1) is the identity on exact multiples of one tenth. -/
theorem round1_int_div (m : ℤ) : round1 ((m : ℚ) / 10) = (m : ℚ) / 10 := by
  unfold round1
  rw [show (10 : ℚ) * ((m : ℚ) / 10) + 1 / 2 = (m : ℤ) + (1 / 2 : ℚ) by ring]
  rw [Int.floor_int_add]
  norm_num

/-- toFixed(1) rounding is monotone. -/
theorem round1_mono (a b : ℚ) (h : a ≤ b) : round1 a ≤ round1 b := by
  unfold round1
  have hf : Int.floor (10 * a + 1 / 2) ≤ Int.floor (10 * b + 1 / 2) :=
    Int.floor_le_floor (by linarith)
  have hq : ((Int.floor (10 * a + 1 / 2) : ℤ) : ℚ) ≤
      ((Int.floor (10 * b + 1 / 2) : ℤ) : ℚ) := by exact_mod_cast hf
  linarith

/-- One increase keeps the text size within the documented range. -/
theorem increaseTextSize_mem (q : ℚ) (h1 : 1 / 2 ≤ q) (h2 : q ≤ 3) :
    1 / 2 ≤ increaseTextSize q ∧ increaseTextSize q ≤ 3 := by
  have e35 : round1 ((3 : ℚ) / 5) = 3 / 5 := by
    rw [show (3 : ℚ) / 5 = ((6 : ℤ) : ℚ) / 10 by norm_num, round1_int_div]
  have e3 : round1 (3 : ℚ) = 3 := by
    rw [show (3 : ℚ) = ((30 : ℤ) : ℚ) / 10 by norm_num, round1_int_div]
  by_cases h : (3 : ℚ) < q + 1 / 10
  · rw [show increaseTextSize q = 3 by
      simp only [increaseTextSize]
      rw [if_pos h]]
    norm_num
  · rw [show increaseTextSize q = round1 (q + 1 / 10) by
      simp only [increaseTextSize]
      rw [if_neg h]]
    constructor
    · have hm : round1 ((3 : ℚ) / 5) ≤ round1 (q + 1 / 10) := round1_mono _ _ (by linarith)
      linarith [e35 ▸ hm]
    · have hm : round1 (q + 1 / 10) ≤ round1 (3 : ℚ) := round1_mono _ _ (by linarith)
      linarith [e3 ▸ hm]

/-- One decrease keeps the text size within the documented range. -/
theorem decreaseTextSize_mem (q : ℚ) (h1 : 1 / 2 ≤ q) (h2 : q ≤ 3) :
    1 / 2 ≤ decreaseTextSize q ∧ decreaseTextSize q ≤ 3 := by
  have e12 : round1 ((1 : ℚ) / 2) = 1 / 2 := by
    rw [show (1 : ℚ) / 2 = ((5 : ℤ) : ℚ) / 10 by norm_num, round1_int_div]
  have e29 : round1 ((29 : ℚ) / 10) = 29 / 10 := by
    rw [show (29 : ℚ) / 10 = ((29 : ℤ) : ℚ) / 10 by norm_num, round1_int_div]
  by_cases h : q - 1 / 10 < 1 / 2
  · rw [show decreaseTextSize q = 1 / 2 by
      simp only [decreaseTextSize]
      rw [if_pos h]]
    norm_num
  · rw [show decreaseTextSize q = round1 (q - 1 / 10) by
      simp only [decreaseTextSize]
      rw [if_neg h]]
    constructor
    · have hm : round1 ((1 : ℚ) / 2) ≤ round1 (q - 1 / 10) := round1_mono _ _ (by linarith)
      linarith [e12 ▸ hm]
    · have hm : round1 (q - 1 / 10) ≤ round1 ((29 : ℚ) / 10) := round1_mono _ _ (by linarith)
      linarith [e29 ▸ hm]

/-! ### Claim theorems -/

/-- C1: each submit increments the session generation counter by exactly one
(so N submits increase it by N, and the captured id is the new counter
value), and a completion — success or failure — whose captured generation no
longer equals the current counter leaves the current definition, the loading
flag and the history untouched; consequently only the request holding the
current-maximum generation at resumption time can mutate that state. -/
theorem C1_generation_discipline :
    (∀ s : SessionState,
      (submit s).2 = s.requestId + 1 ∧ (submitState s).requestId = s.requestId + 1)
    ∧ (∀ (s : SessionState) (n : ℕ), (submitState^[n] s).requestId = s.requestId + n)
    ∧ (∀ (s : SessionState) (g : ℕ) (d : WordDefinition) (i : String) (ts : ℕ),
        g ≠ s.requestId → completeSuccess s g d i ts = s)
    ∧ (∀ (s : SessionState) (g : ℕ), g ≠ s.requestId → completeFailure s g = s) := by
  refine ⟨fun s => ⟨rfl, rfl⟩, fun s n => ?_, fun s g d i ts h => ?_, fun s g h => ?_⟩
  · induction n generalizing s with
    | zero => simp
    | succ n ih =>
      rw [Function.iterate_succ_apply, ih]
      show (submitState s).requestId + n = s.requestId + (n + 1)
      have : (submitState s).requestId = s.requestId + 1 := rfl
      omega
  · unfold completeSuccess
    rw [if_pos (Ne.symm h)]
  · unfold completeFailure
    rw [if_pos (Ne.symm h)]

/-- Witness for C1 at concrete inputs: three submits advance the counter from
0 to 3, and completions tagged with a superseded generation are no-ops. -/
theorem C1_generation_discipline_witness :
    (submitState^[3] ⟨0, none, LoadingState.IDLE, []⟩).requestId = 3
    ∧ completeSuccess ⟨2, none, LoadingState.TRANSLATING, []⟩ 1
        ⟨"hej", some "hello", none, "", "Text", "k", none, none, none⟩ "w" 0 =
        ⟨2, none, LoadingState.TRANSLATING, []⟩
    ∧ completeFailure ⟨2, none, LoadingState.TRANSLATING, []⟩ 1 =
        ⟨2, none, LoadingState.TRANSLATING, []⟩ :=
  ⟨C1_generation_discipline.2.1 ⟨0, none, LoadingState.IDLE, []⟩ 3,
   C1_generation_discipline.2.2.1 ⟨2, none, LoadingState.TRANSLATING, []⟩ 1
     ⟨"hej", some "hello", none, "", "Text", "k", none, none, none⟩ "w" 0 (by decide),
   C1_generation_discipline.2.2.2 ⟨2, none, LoadingState.TRANSLATING, []⟩ 1 (by decide)⟩

/-- C2 (code bug): the history update writes
[newItem, ...filtered].slice(50), and the JavaScript slice(50) DROPS the
first 50 entries instead of keeping them, so a successful current-generation
lookup starting from an empty history leaves the history empty instead of
holding min(1, 50) = 1 entry — contradicting the adjacent source comment
that says the last 50 entries are kept. -/
theorem C2_history_capacity_bug :
    pushHistory [] ⟨"hund", some "dog", none, "", "Text", "k", none, none, none⟩
        "id1" 5 = []
    ∧ (completeSuccess ⟨1, none, LoadingState.TRANSLATING, []⟩ 1
        ⟨"hund", some "dog", none, "", "Text", "k", none, none, none⟩ "id1" 5).history
        = [] := by
  exact ⟨rfl, rfl⟩

/-- C5 (amended): a translation failure of the request still holding the
current generation clears the loading flag back to IDLE and changes nothing
else — in particular no error presentation state is ever entered, the error
being only logged to the console — while a failure of a superseded
generation changes nothing at all. -/
theorem C5_failure_handling :
    ∀ (s : SessionState) (g : ℕ),
      (g = s.requestId →
        completeFailure s g = { s with loadingState := LoadingState.IDLE })
      ∧ (g ≠ s.requestId → completeFailure s g = s)
      ∧ (s.loadingState ≠ LoadingState.ERROR →
          (completeFailure s g).loadingState ≠ LoadingState.ERROR) := by
  intro s g
  refine ⟨fun h => ?_, fun h => ?_, fun h => ?_⟩
  · subst h
    simp [completeFailure]
  · unfold completeFailure
    rw [if_pos (Ne.symm h)]
  · unfold completeFailure
    split
    · exact h
    · simp

/-- Counterexample for C5 as stated: a current-generation failure sets no
error presentation state — the loading state becomes IDLE, not ERROR, and
nothing else records the failure. -/
theorem C5_counterexample :
    completeFailure ⟨1, none, LoadingState.TRANSLATING, []⟩ 1 =
      ⟨1, none, LoadingState.IDLE, []⟩
    ∧ (completeFailure ⟨1, none, LoadingState.TRANSLATING, []⟩ 1).loadingState ≠
        LoadingState.ERROR := by
  exact ⟨rfl, by decide⟩

/-- Witness for C5 at concrete inputs: the current generation clears loading
to IDLE; a stale generation leaves the state untouched. -/
theorem C5_failure_handling_witness :
    completeFailure ⟨4, none, LoadingState.TRANSLATING, []⟩ 4 =
      ⟨4, none, LoadingState.IDLE, []⟩
    ∧ completeFailure ⟨4, none, LoadingState.TRANSLATING, []⟩ 3 =
        ⟨4, none, LoadingState.TRANSLATING, []⟩ :=
  ⟨(C5_failure_handling ⟨4, none, LoadingState.TRANSLATING, []⟩ 4).1 rfl,
   (C5_failure_handling ⟨4, none, LoadingState.TRANSLATING, []⟩ 3).2.1 (by decide)⟩

/-- C8: stopAudio is idempotent — with nothing playing it is a no-op that
cannot throw (it is a total function), and running it twice from any state
equals running it once. -/
theorem C8_stopAudio_idempotent :
    ∀ s : AudioState,
      (s.currentAudio = none → s.currentResolve = none →
        s.speechQueueActive = false → stopAudio s = s)
      ∧ stopAudio (stopAudio s) = stopAudio s := by
  intro s
  obtain ⟨a, r, q, res, rej⟩ := s
  constructor
  · rintro rfl rfl rfl
    rfl
  · cases r <;> rfl

/-- Witness for C8 at a concrete idle state: stopping when nothing is
playing changes nothing. -/
theorem C8_stopAudio_idempotent_witness :
    stopAudio ⟨none, none, false, [7], [9]⟩ = ⟨none, none, false, [7], [9]⟩ :=
  (C8_stopAudio_idempotent ⟨none, none, false, [7], [9]⟩).1 rfl rfl rfl

/-- C9: after stopAudio both module-level handles (currentAudio and
currentResolve) are null, the previously pending playback promise — if any —
has been resolved, and no promise has been rejected by the call. -/
theorem C9_stopAudio_postcondition :
    ∀ s : AudioState,
      (stopAudio s).currentAudio = none
      ∧ (stopAudio s).currentResolve = none
      ∧ (∀ p, s.currentResolve = some p → p ∈ (stopAudio s).resolved)
      ∧ (stopAudio s).rejected = s.rejected := by
  intro s
  obtain ⟨a, r, q, res, rej⟩ := s
  cases r with
  | none => exact ⟨rfl, rfl, fun p hp => by simp at hp, rfl⟩
  | some p0 =>
    refine ⟨rfl, rfl, ?_, rfl⟩
    intro p hp
    have hpp : p = p0 := by
      simpa using hp.symm
    subst hpp
    show p ∈ p :: res
    exact List.mem_cons_self p res

/-- Witness for C9 at a concrete state with a pending resolver: the pending
promise id 3 ends up resolved. -/
theorem C9_stopAudio_postcondition_witness :
    3 ∈ (stopAudio ⟨some 1, some 3, true, [], []⟩).resolved :=
  (C9_stopAudio_postcondition ⟨some 1, some 3, true, [], []⟩).2.2.1 3 rfl

/-- C6: the playback promise is rejected exactly when the primary remote
path errors and the on-device fallback is unavailable or errors; a fallback
success after a primary failure is a normal resolution; and the text handed
to either path is first truncated to at most 200 characters. -/
theorem C6_playback_failure_semantics :
    ∀ (env : AudioEnv) (text : List Char),
      ((playPronunciation env text).outcome = PlayOutcome.rejected ↔
        env.primary = PathOutcome.error ∧
          (env.speechSynthAvailable = false ∨ env.fallback = PathOutcome.error))
      ∧ (env.primary = PathOutcome.error → env.speechSynthAvailable = true →
          env.fallback = PathOutcome.ended →
          (playPronunciation env text).outcome = PlayOutcome.resolved)
      ∧ (playPronunciation env text).playedText = safeText text
      ∧ (playPronunciation env text).playedText.length ≤ 200 := by
  intro env text
  have hlen : (safeText text).length ≤ 200 := by
    unfold safeText
    split
    · simp [List.length_take]
    · omega
  obtain ⟨p, sa, f⟩ := env
  cases p <;> cases sa <;> cases f <;>
    exact ⟨by simp [playPronunciation], by intro h1 h2 h3 <;> simp_all [playPronunciation],
      rfl, hlen⟩

/-- Witness for C6 at a concrete environment: primary error plus fallback
success resolves rather than rejects. -/
theorem C6_playback_failure_semantics_witness :
    (playPronunciation ⟨PathOutcome.error, true, PathOutcome.ended⟩
        (String.data "hund")).outcome = PlayOutcome.resolved :=
  (C6_playback_failure_semantics ⟨PathOutcome.error, true, PathOutcome.ended⟩
    (String.data "hund")).2.1 rfl rfl rfl

/-- C7 (amended): whenever the container is at least as wide as the popover
plus both margins, the computed popover center lies between
popoverWidth / 2 + margin and containerWidth - popoverWidth / 2 - margin;
and unconditionally the indicator offset is clamped to at most
popoverWidth / 2 - 24 in absolute value (the code's popover widths 288 and
320 both exceed 48).  In narrower containers the center is pinned to the
lower bound, which can exceed the claimed upper bound. -/
theorem C7_popover_clamp :
    ∀ left width containerWidth windowWidth : ℚ,
      (popoverWidthOf windowWidth + 2 * 12 ≤ containerWidth →
        popoverWidthOf windowWidth / 2 + 12 ≤
            (renderPopoverPlacement left width containerWidth windowWidth).popoverCenterX
          ∧ (renderPopoverPlacement left width containerWidth windowWidth).popoverCenterX ≤
              containerWidth - popoverWidthOf windowWidth / 2 - 12)
      ∧ |(renderPopoverPlacement left width containerWidth windowWidth).clampedArrowOffset| ≤
          popoverWidthOf windowWidth / 2 - 24 := by
  intro left width cw ww
  have hpw : popoverWidthOf ww = 288 ∨ popoverWidthOf ww = 320 := by
    unfold popoverWidthOf
    split
    · exact Or.inl rfl
    · exact Or.inr rfl
  have hpw0 : (0 : ℚ) ≤ popoverWidthOf ww / 2 - 24 := by
    rcases hpw with h | h <;> rw [h] <;> norm_num
  dsimp only [renderPopoverPlacement]
  constructor
  · intro hcw
    constructor
    · exact le_max_left _ _
    · apply max_le
      · linarith
      · exact le_trans (min_le_right _ _) (by linarith)
  · rw [abs_le]
    constructor
    · exact le_max_left _ _
    · apply max_le
      · linarith
      · exact min_le_right _ _

/-- Counterexample for C7 as stated: in a 100-unit-wide container the
clamped center is 172, which exceeds the claimed upper bound
containerWidth - popoverWidth / 2 - margin = -72. -/
theorem C7_counterexample :
    (renderPopoverPlacement 40 20 100 900).popoverCenterX = 172
    ∧ ¬((renderPopoverPlacement 40 20 100 900).popoverCenterX ≤
        100 - 320 / 2 - 12) := by
  have h : (renderPopoverPlacement 40 20 100 900).popoverCenterX = 172 := by
    dsimp only [renderPopoverPlacement, popoverWidthOf]
    rw [if_neg (by norm_num)]
    norm_num
  refine ⟨h, ?_⟩
  rw [h]
  norm_num

/-- Witness for C7 at a concrete wide container: the center stays within the
claimed band. -/
theorem C7_popover_clamp_witness :
    320 / 2 + 12 ≤ (renderPopoverPlacement 40 20 400 900).popoverCenterX
    ∧ (renderPopoverPlacement 40 20 400 900).popoverCenterX ≤ 400 - 320 / 2 - 12 := by
  have hw : popoverWidthOf 900 = 320 := by
    unfold popoverWidthOf
    rw [if_neg (by norm_num)]
  have h := (C7_popover_clamp 40 20 400 900).1 (by rw [hw]; norm_num)
  rwa [hw] at h

/-- C10 (amended): on the reachable tenth-of-a-unit grid the increase and
decrease handlers compute exactly min(prev + 0.1, 3.0) and
max(prev - 0.1, 0.5); for arbitrary starting values in [0.5, 3.0] (where
toFixed(1) rounding can move off-grid values to the nearest tenth) every
sequence of increases and decreases still keeps the size within
[0.5, 3.0]. -/
theorem C10_text_size_invariant :
    (∀ k : ℤ, 5 ≤ k → k ≤ 30 →
      increaseTextSize ((k : ℚ) / 10) = min ((k : ℚ) / 10 + 1 / 10) 3
      ∧ decreaseTextSize ((k : ℚ) / 10) = max ((k : ℚ) / 10 - 1 / 10) (1 / 2))
    ∧ (∀ (q : ℚ) (ops : List Bool), 1 / 2 ≤ q → q ≤ 3 →
        1 / 2 ≤ applyTextSizeOps ops q ∧ applyTextSizeOps ops q ≤ 3) := by
  constructor
  · intro k hk5 hk30
    have hplus : (k : ℚ) / 10 + 1 / 10 = ((k + 1 : ℤ) : ℚ) / 10 := by
      push_cast
      ring
    have hminus : (k : ℚ) / 10 - 1 / 10 = ((k - 1 : ℤ) : ℚ) / 10 := by
      push_cast
      ring
    constructor
    · by_cases h : (3 : ℚ) < (k : ℚ) / 10 + 1 / 10
      · rw [show increaseTextSize ((k : ℚ) / 10) = 3 by
          simp only [increaseTextSize]
          rw [if_pos h]]
        rw [min_eq_right (by linarith)]
      · rw [show increaseTextSize ((k : ℚ) / 10) = round1 ((k : ℚ) / 10 + 1 / 10) by
          simp only [increaseTextSize]
          rw [if_neg h]]
        rw [hplus, round1_int_div, min_eq_left]
        rw [← hplus]
        linarith
    · by_cases h : (k : ℚ) / 10 - 1 / 10 < 1 / 2
      · rw [show decreaseTextSize ((k : ℚ) / 10) = 1 / 2 by
          simp only [decreaseTextSize]
          rw [if_pos h]]
        rw [max_eq_right (by linarith)]
      · rw [show decreaseTextSize ((k : ℚ) / 10) = round1 ((k : ℚ) / 10 - 1 / 10) by
          simp only [decreaseTextSize]
          rw [if_neg h]]
        rw [hminus, round1_int_div, max_eq_left]
        rw [← hminus]
        linarith
  · intro q ops
    induction ops generalizing q with
    | nil => exact fun h1 h2 => ⟨h1, h2⟩
    | cons b rest ih =>
      intro h1 h2
      show 1 / 2 ≤ applyTextSizeOps rest (if b then increaseTextSize q else decreaseTextSize q)
        ∧ applyTextSizeOps rest (if b then increaseTextSize q else decreaseTextSize q) ≤ 3
      cases b
      · obtain ⟨hd1, hd2⟩ := decreaseTextSize_mem q h1 h2
        exact ih (decreaseTextSize q) hd1 hd2
      · obtain ⟨hi1, hi2⟩ := increaseTextSize_mem q h1 h2
        exact ih (increaseTextSize q) hi1 hi2

/-- Counterexample for C10 as stated: starting from 0.55 (inside
[0.5, 3.0]) the increase handler's toFixed(1) rounding yields 0.7, not
min(0.55 + 0.1, 3.0) = 0.65. -/
theorem C10_counterexample :
    increaseTextSize (11 / 20) = 7 / 10
    ∧ increaseTextSize (11 / 20) ≠ min ((11 : ℚ) / 20 + 1 / 10) 3 := by
  have h : increaseTextSize ((11 : ℚ) / 20) = 7 / 10 := by
    simp only [increaseTextSize]
    rw [if_neg (by norm_num)]
    unfold round1
    norm_num
  refine ⟨h, ?_⟩
  rw [h, min_eq_left (by norm_num)]
  norm_num

/-- Witness for C10 at concrete inputs: from 1.0 an increase gives exactly
1.1, and a three-press sequence starting at 1.0 stays within bounds. -/
theorem C10_text_size_invariant_witness :
    increaseTextSize (((10 : ℤ) : ℚ) / 10) = min (((10 : ℤ) : ℚ) / 10 + 1 / 10) 3
    ∧ 1 / 2 ≤ applyTextSizeOps [true, false, false] 1
    ∧ applyTextSizeOps [true, false, false] 1 ≤ 3 :=
  ⟨(C10_text_size_invariant.1 10 (by norm_num) (by norm_num)).1,
   (C10_text_size_invariant.2 1 [true, false, false] (by norm_num) (by norm_num)).1,
   (C10_text_size_invariant.2 1 [true, false, false] (by norm_num) (by norm_num)).2⟩

/-- C3 (amended): the extracted context is the sentence-delimited substring
of the flattened container text — starting after the nearest terminator
strictly before globalStart (or at the container start when none exists) and
ending just past the nearest terminator at or after globalEnd (or at the
container end when none exists) — additionally trimmed of leading and
trailing whitespace; and the "tale" scenario yields the whole container
string including its final period. -/
theorem C3_context_extraction :
    (∀ (t : List Char) (gs ge : Nat),
      extractContext t gs ge = jsTrim ((t.take (sentEnd t ge)).drop (sentStart t gs))
      ∧ sentStart t gs ≤ gs
      ∧ ((sentStart t gs = 0 ∧ ∀ j, j < gs → isTerminator (t.getD j ' ') = false)
        ∨ (0 < sentStart t gs
            ∧ isTerminator (t.getD (sentStart t gs - 1) ' ') = true
            ∧ ∀ k, sentStart t gs ≤ k → k < gs → isTerminator (t.getD k ' ') = false))
      ∧ ((sentEnd t ge = t.length
            ∧ ∀ j, ge ≤ j → j < t.length → isTerminator (t.getD j ' ') = false)
        ∨ (∃ j, ge ≤ j ∧ j < t.length ∧ isTerminator (t.getD j ' ') = true
            ∧ sentEnd t ge = j + 1
            ∧ ∀ k, ge ≤ k → k < j → isTerminator (t.getD k ' ') = false)))
    ∧ extractContext (String.data "Han kan ikke tale dansk.") 13 17 =
        String.data "Han kan ikke tale dansk." := by
  constructor
  · intro t gs ge
    exact ⟨rfl, scanBackAux_le t gs, scanBackAux_spec t gs,
      scanFwdAux_spec t (t.length - ge) ge (by omega)⟩
  · rfl

/-- Counterexample for C3 as stated: for the span "Godt" in
"Hej. Godt ord." the claimed substring (terminator excluded, scanning
backward) is " Godt ord." with a leading space, but the code additionally
trims, returning "Godt ord.". -/
theorem C3_counterexample :
    sentStart (String.data "Hej. Godt ord.") 5 = 4
    ∧ sentEnd (String.data "Hej. Godt ord.") 9 = 14
    ∧ ((String.data "Hej. Godt ord.").take 14).drop 4 = String.data " Godt ord."
    ∧ extractContext (String.data "Hej. Godt ord.") 5 9 = String.data "Godt ord."
    ∧ String.data "Godt ord." ≠ String.data " Godt ord." := by
  exact ⟨rfl, rfl, rfl, rfl, by decide⟩

/-- Witness for C3 at a concrete input: instantiating the boundary
characterisation for the span "Godt" in "Hej. Godt ord.". -/
theorem C3_context_extraction_witness :
    extractContext (String.data "Hej. Godt ord.") 5 9 =
      jsTrim (((String.data "Hej. Godt ord.").take
        (sentEnd (String.data "Hej. Godt ord.") 9)).drop
          (sentStart (String.data "Hej. Godt ord.") 5))
    ∧ sentStart (String.data "Hej. Godt ord.") 5 ≤ 5 :=
  ⟨(C3_context_extraction.1 (String.data "Hej. Godt ord.") 5 9).1,
   (C3_context_extraction.1 (String.data "Hej. Godt ord.") 5 9).2.1⟩

/-- C4 (amended): clicking at an offset adjacent to a word character expands
to the maximal contiguous run of word characters around the offset (the
scanned boundaries move exactly to the first non-word character in each
direction), and resolution returns that run unless it consists solely of
hyphens — the one character class that the punctuation filter also matches —
in which case, as for clicks on whitespace or pure punctuation, resolution
clears the selection by returning none. -/
theorem C4_point_resolution :
    ∀ (text : List Char) (off : Nat),
      (scanWordStart text off ≤ off ∧ off ≤ scanWordEnd text off)
      ∧ (∀ c ∈ (text.take (scanWordEnd text off)).drop (scanWordStart text off),
          isWordChar c = true)
      ∧ (scanWordStart text off = 0
          ∨ isWordChar (text.getD (scanWordStart text off - 1) ' ') = false)
      ∧ (text.length ≤ scanWordEnd text off
          ∨ isWordChar (text.getD (scanWordEnd text off) ' ') = false)
      ∧ ((isWordChar (text.getD off ' ') = true
            ∨ (0 < off ∧ isWordChar (text.getD (off - 1) ' ') = true)) →
          resolveWordAt text off =
            if isAllHyphens
                ((text.take (scanWordEnd text off)).drop (scanWordStart text off)) = true
            then none
            else some ((text.take (scanWordEnd text off)).drop (scanWordStart text off)))
      ∧ ((isWordChar (text.getD off ' ') = false
            ∧ (off = 0 ∨ isWordChar (text.getD (off - 1) ' ') = false)) →
          resolveWordAt text off = none) := by
  intro text off
  refine ⟨⟨scanWordStart_le text off, scanWordEndAux_ge text (text.length - off) off⟩,
    run_words text off, scanWordStart_boundary text off,
    scanWordEndAux_boundary text (text.length - off) off (by omega), ?_, ?_⟩
  · intro hcase
    have hrun : ∀ c ∈ (text.take (scanWordEnd text off)).drop (scanWordStart text off),
        isWordChar c = true := run_words text off
    have hoffle : off ≤ text.length := by
      rcases hcase with hw | ⟨hpos, hw1⟩
      · exact Nat.le_of_lt (word_getD_lt text off hw)
      · have := word_getD_lt text (off - 1) hw1
        omega
    have hele : scanWordEnd text off ≤ text.length := by
      have := scanWordEndAux_le text (text.length - off) off
      have h2 : scanWordEnd text off ≤ off + (text.length - off) := this
      omega
    have hslt : scanWordStart text off < scanWordEnd text off := by
      rcases hcase with hw | ⟨hpos, hw1⟩
      · have h1 := scanWordStart_le text off
        have h2 := scanWordEnd_succ text off hw
        omega
      · have h1 := scanWordStart_pred text off hpos hw1
        have h2 : off ≤ scanWordEnd text off := scanWordEndAux_ge text (text.length - off) off
        omega
    have hlen_pos :
        0 < ((text.take (scanWordEnd text off)).drop (scanWordStart text off)).length := by
      rw [List.length_drop, List.length_take]
      omega
    have hne : (text.take (scanWordEnd text off)).drop (scanWordStart text off) ≠ [] :=
      List.length_pos.mp hlen_pos
    have htrim : jsTrim ((text.take (scanWordEnd text off)).drop (scanWordStart text off)) =
        (text.take (scanWordEnd text off)).drop (scanWordStart text off) :=
      jsTrim_eq_self _ (fun c hc => word_not_space c (hrun c hc))
    have hie : ((text.take (scanWordEnd text off)).drop (scanWordStart text off)).isEmpty
        = false := by
      cases hrn : (text.take (scanWordEnd text off)).drop (scanWordStart text off) with
      | nil => exact absurd hrn hne
      | cons a l => rfl
    simp only [resolveWordAt]
    rw [htrim]
    by_cases hall : isAllHyphens
        ((text.take (scanWordEnd text off)).drop (scanWordStart text off)) = true
    · rw [if_pos hall]
      have hall' := hall
      unfold isAllHyphens at hall'
      rw [Bool.and_eq_true] at hall'
      have hallmem := List.all_eq_true.mp hall'.2
      have hpp : isPurePunct
          ((text.take (scanWordEnd text off)).drop (scanWordStart text off)) = true := by
        unfold isPurePunct
        rw [Bool.and_eq_true]
        refine ⟨hall'.1, ?_⟩
        rw [List.all_eq_true]
        intro c hc
        exact hyphen_punct c (by simpa using hallmem c hc)
      rw [hpp]
      simp
    · rw [if_neg hall]
      have hpp : isPurePunct
          ((text.take (scanWordEnd text off)).drop (scanWordStart text off)) = false := by
        by_contra hcon
        have hppt : isPurePunct
            ((text.take (scanWordEnd text off)).drop (scanWordStart text off)) = true := by
          revert hcon
          cases isPurePunct ((text.take (scanWordEnd text off)).drop (scanWordStart text off)) <;>
            simp
        apply hall
        unfold isPurePunct at hppt
        rw [Bool.and_eq_true] at hppt
        unfold isAllHyphens
        rw [Bool.and_eq_true]
        refine ⟨hppt.1, ?_⟩
        rw [List.all_eq_true]
        intro c hc
        have hcp : isPunctChar c = true := List.all_eq_true.mp hppt.2 c hc
        simpa using word_punct_toNat c (hrun c hc) hcp
      rw [hie, hpp]
      simp
  · rintro ⟨hw0, hcases⟩
    have hs_eq : scanWordStart text off = off := by
      cases off with
      | zero => rfl
      | succ k =>
        rcases hcases with h0 | hwf
        · exact absurd h0 (Nat.succ_ne_zero k)
        · have hwk : isWordChar (text.getD k ' ') = false := by simpa using hwf
          simp only [scanWordStart]
          rw [if_neg (fun hc => by rw [hc] at hwk; exact Bool.noConfusion hwk)]
    have he_eq : scanWordEnd text off = off := by
      unfold scanWordEnd
      cases hfuel : text.length - off with
      | zero => rfl
      | succ m =>
        simp only [scanWordEndAux]
        rw [if_neg (fun hc => by
          have h2 := ((Bool.and_eq_true _ _).mp hc).2
          rw [hw0] at h2
          exact Bool.noConfusion h2)]
    have hrun_nil : (text.take off).drop off = [] := by
      have hl : ((text.take off).drop off).length = 0 := by
        rw [List.length_drop, List.length_take]
        omega
      exact List.eq_nil_of_length_eq_zero hl
    simp only [resolveWordAt]
    rw [hs_eq, he_eq, hrun_nil]
    rfl

/-- Counterexample for C4 as stated: in "x -- y" the offset 3 sits on a
hyphen, a word character per the claim's own list, and the maximal word-
character run around it is "--"; yet resolution returns none because the
pure-punctuation filter also matches hyphens. -/
theorem C4_counterexample :
    isWordChar ((String.data "x -- y").getD 3 ' ') = true
    ∧ scanWordStart (String.data "x -- y") 3 = 2
    ∧ scanWordEnd (String.data "x -- y") 3 = 4
    ∧ ((String.data "x -- y").take 4).drop 2 = String.data "--"
    ∧ resolveWordAt (String.data "x -- y") 3 = none := by
  exact ⟨by decide, rfl, rfl, rfl, rfl⟩

/-- Witness for C4 at a concrete input: clicking inside "tale" in the
scenario string resolves to exactly the word "tale". -/
theorem C4_point_resolution_witness :
    resolveWordAt (String.data "Han kan ikke tale dansk.") 14 =
      some (String.data "tale") :=
  ((C4_point_resolution (String.data "Han kan ikke tale dansk.") 14).2.2.2.2.1
    (Or.inl (by decide))).trans (by decide)

end DanskReader
